import Mathlib

/-!
Verification of `rcstr` (`src/lib.rs`): `RcStr`, a reference-counted string
handle `RcStr(Rc<String>)` that behaves like a plain `str` slice.

The Rust code is shallowly embedded as follows.

* A handle `RcStr(Rc<String>)` is modelled by `Rcstr.RcStr`: the address of
  the shared `Rc` allocation (`alloc`, the handle's identity) together with
  the immutable `String` content that allocation holds.  The content of an
  allocation never changes while any handle to it is alive, so a handle's
  view of the content can be carried in the handle itself; the
  reference-count/lifetime aspect of `Rc` is modelled separately by
  `Rcstr.Heap` for the clone/drop claim.
* Rust `str` values (borrowed views) are modelled by Lean `String`; the
  character content, element for element, is the list `String.data`.
* A `Hasher` is modelled by the stream of bytes a value writes into it:
  `Hash` implementations become functions producing that stream, and "any
  hasher" becomes an arbitrary function from streams to hash values.
* `HashSet<RcStr>` lookups are modelled by `Rcstr.HashSet`: a query reaches
  exactly the elements whose stored hash equals the query key's hash (the
  bucket/probe mechanism) and compares those candidates with the relevant
  equality, which is the `Borrow`-based contract of `HashSet::contains`.
-/

namespace Rcstr

/-- Model of the handle type `RcStr(Rc<String>)` (src/lib.rs line 26).
`alloc` is the address of the `Rc` allocation the handle points to (the
handle's identity); `content` is the immutable `String` stored there. -/
structure RcStr where
  alloc : Nat
  content : String

/-- `RcStr::new` (src/lib.rs lines 41-43): `RcStr(Rc::new(value.into()))`.
Wraps an owned copy of `value` in a freshly allocated `Rc`; `alloc` is the
fresh address the allocator picks for this construction. -/
def RcStr.new (alloc : Nat) (value : String) : RcStr :=
  ⟨alloc, value⟩

/-- `Deref for RcStr` (src/lib.rs lines 72-77): `&self.0[..]`, the borrowed
`str` view of the shared `String`. -/
def RcStr.deref (r : RcStr) : String :=
  r.content

/-- `Borrow<str> for RcStr` (src/lib.rs lines 66-70): `&self.0[..]`. -/
def RcStr.borrow (r : RcStr) : String :=
  r.content

/-- `AsRef<str> for RcStr` (src/lib.rs lines 79-83): `&self.0[..]`. -/
def RcStr.asRef (r : RcStr) : String :=
  r.content

/-- `Rc::ptr_eq`: two handles point to the same allocation. -/
def RcStr.ptrEq (a b : RcStr) : Bool :=
  a.alloc == b.alloc

/-- Derived `PartialEq` (src/lib.rs line 25): compares the single `Rc<String>`
field.  `PartialEq for Rc<T>` with `T: Eq` is
`Rc::ptr_eq(a, b) || **a == **b`: a pointer fast path, then `String`
content equality.  Neither branch looks at the share count. -/
def RcStr.beq (a b : RcStr) : Bool :=
  RcStr.ptrEq a b || a.content == b.content

/-- Comparison of a handle against a borrowed `str` view, performed through
the `Deref` view as in the crate's doc example `assert_eq!(&*a, "foo")`
(src/lib.rs lines 36-39): plain `str` content equality of the deref'd view
and the borrowed string. -/
def RcStr.eqStr (a : RcStr) (v : String) : Bool :=
  a.deref == v

/-- Execution well-formedness of a pair of handles: if they point to the same
allocation they see the same content.  This holds for every pair of live
handles in a real execution, where the allocation address determines the
buffer; it is the only fact about addresses the proofs use. -/
def RcStr.compat (a b : RcStr) : Prop :=
  a.alloc = b.alloc → a.content = b.content

/-- Three-way comparison of naturals (the comparison underlying byte and
scalar-value comparison in `str::cmp`). -/
def natCmp (a b : Nat) : Ordering :=
  if a < b then .lt else if b < a then .gt else .eq

/-- Comparison of two characters by Unicode scalar value.  Rust's `str::cmp`
compares the UTF-8 bytes lexicographically, and on valid UTF-8 the byte
order coincides with scalar-value order of the character sequences. -/
def charCmp (c d : Char) : Ordering :=
  natCmp c.toNat d.toNat

/-- Lexicographic three-way comparison of character sequences: the order
`str::cmp` implements. -/
def lexOrd : List Char → List Char → Ordering
  | [], [] => .eq
  | [], _ :: _ => .lt
  | _ :: _, [] => .gt
  | a :: as, b :: bs =>
    match charCmp a b with
    | .eq => lexOrd as bs
    | o => o

/-- `str::cmp`: lexicographic comparison of the two character contents. -/
def strCmp (s t : String) : Ordering :=
  lexOrd s.data t.data

/-- `Ord for RcStr` (src/lib.rs lines 48-52): `self[..].cmp(&other[..])` -
the `str` comparison of the two deref'd views.  The allocation address is
never consulted. -/
def RcStr.cmp (a b : RcStr) : Ordering :=
  strCmp a.deref b.deref

/-- Derived `PartialOrd` (src/lib.rs line 25): compares the single field with
`PartialOrd for Rc<String>`, which is `String::partial_cmp` of the two
pointed-to strings, i.e. `Some` of the `str` comparison.  There is no
pointer fast path in `PartialOrd for Rc`. -/
def RcStr.partialCmp (a b : RcStr) : Option Ordering :=
  some (strCmp a.content b.content)

/-- The UTF-8 bytes of a `str`, as `str::as_bytes` exposes them
(`String.utf8EncodeChar` is the UTF-8 encoding of one character). -/
def strBytes (s : String) : List Nat :=
  (s.data.flatMap String.utf8EncodeChar).map (fun b => b.toNat)

/-- `Hash for str`: writes the UTF-8 bytes of the content into the hasher,
followed by a single `0xff` terminator byte. -/
def strHashStream (s : String) : List Nat :=
  strBytes s ++ [0xff]

/-- `Hash for String`: delegates to `Hash for str` on the deref'd view. -/
def stringHashStream (s : String) : List Nat :=
  strHashStream s

/-- Derived `Hash` for `RcStr` (src/lib.rs line 25): hashes the single
`Rc<String>` field; `Hash for Rc<T>` hashes `**self`, the pointed-to
`String`.  Neither the allocation address nor the share count is ever
written to the hasher. -/
def RcStr.hashStream (r : RcStr) : List Nat :=
  stringHashStream r.content

/-- A `HashSet<RcStr>`, abstracted to its element list.  Bucketing is
modelled in the lookup operations: a query only ever reaches elements whose
stored hash (under the set's hasher) equals the query key's hash. -/
abbrev HashSet := List RcStr

/-- `HashSet::new()`. -/
def HashSet.empty : HashSet := []

/-- `HashSet::insert`. -/
def HashSet.insert (set : HashSet) (r : RcStr) : HashSet :=
  r :: set

/-- `HashSet::<RcStr>::contains::<str>(q)` under hasher `H`, the heterogeneous
lookup through `Borrow<str>`: the query hashes `q` with `Hash for str`,
probes the bucket of elements whose stored hash (of the whole `RcStr`)
matches, and compares candidates by `element.borrow() == q`. -/
def HashSet.containsStr (H : List Nat → Nat) (set : HashSet) (q : String) : Bool :=
  set.any fun r => (H r.hashStream == H (strHashStream q)) && (RcStr.borrow r == q)

/-- `HashSet::<RcStr>::contains::<RcStr>(q)` under hasher `H`: the query
hashes the handle `q` with `RcStr`'s derived `Hash` and compares candidates
with `RcStr`'s `PartialEq`. -/
def HashSet.containsRc (H : List Nat → Nat) (set : HashSet) (q : RcStr) : Bool :=
  set.any fun r => (H r.hashStream == H q.hashStream) && RcStr.beq r q

/-- One lower-case hexadecimal digit. -/
def hexDigit (n : Nat) : Char :=
  if n < 10 then Char.ofNat (48 + n) else Char.ofNat (87 + n)

/-- Lower-case hexadecimal digits of `n`, most significant first. -/
def hexChars (n : Nat) : List Char :=
  if _h : n < 16 then [hexDigit n]
  else hexChars (n / 16) ++ [hexDigit (n % 16)]
decreasing_by exact Nat.div_lt_self (by omega) (by decide)

/-- Escaping of one character as `char::escape_debug` renders it inside a
debug-formatted string: quote and backslash are backslash-escaped, the named
control characters use their short escapes, other control characters use the
`\u` escape with braces, and every other character stands for itself. -/
def escapeDebugChar (c : Char) : String :=
  if c = '"' then "\\\""
  else if c = '\\' then "\\\\"
  else if c = '\n' then "\\n"
  else if c = '\t' then "\\t"
  else if c = '\r' then "\\r"
  else if c.toNat < 0x20 ∨ c.toNat = 0x7f then
    "\\u\x7b" ++ String.mk (hexChars c.toNat) ++ "\x7d"
  else String.singleton c

/-- `Display for str`: the raw text, no decoration. -/
def strDisplayFmt (s : String) : String :=
  s

/-- `Debug for str`: the content escaped character by character, wrapped in
double quotes. -/
def strDebugFmt (s : String) : String :=
  "\"" ++ String.join (s.data.map escapeDebugChar) ++ "\""

/-- `fmt::Display for RcStr` (src/lib.rs lines 60-64): `self[..].fmt(f)`,
the `str` display formatting of the deref'd view. -/
def RcStr.displayFmt (r : RcStr) : String :=
  strDisplayFmt r.deref

/-- `fmt::Debug for RcStr` (src/lib.rs lines 54-58): `self[..].fmt(f)`,
the `str` debug formatting of the deref'd view. -/
def RcStr.debugFmt (r : RcStr) : String :=
  strDebugFmt r.deref

/-- The single-threaded `Rc` heap: which allocation addresses hold a live
`String` cell, and with what strong reference count. -/
structure Heap where
  cells : Nat → Option (String × Nat)

/-- Point update of one heap cell. -/
def Heap.write (h : Heap) (i : Nat) (v : Option (String × Nat)) : Heap :=
  ⟨fun j => if j = i then v else h.cells j⟩

/-- A handle is valid in a heap when its allocation is live, stores exactly
the content the handle views, and carries a positive strong count. -/
def Heap.valid (h : Heap) (r : RcStr) : Prop :=
  ∃ n, h.cells r.alloc = some (r.content, n) ∧ 0 < n

/-- Derived `Clone` (src/lib.rs line 25): clones the `Rc` field, which
increments the strong count of the same allocation and returns a second
handle to the same buffer.  No character data is read or copied. -/
def RcStr.clone (h : Heap) (r : RcStr) : Heap × RcStr :=
  (match h.cells r.alloc with
   | some (s, n) => h.write r.alloc (some (s, n + 1))
   | none => h,
   ⟨r.alloc, r.content⟩)

/-- Dropping a handle: decrements the strong count of its allocation; when
the count reaches zero the buffer is freed. -/
def RcStr.drop (h : Heap) (r : RcStr) : Heap :=
  match h.cells r.alloc with
  | some (s, n) => if n ≤ 1 then h.write r.alloc none else h.write r.alloc (some (s, n - 1))
  | none => h

/-- Dereferencing a handle against the heap: the content of its allocation,
if that allocation is still live. -/
def RcStr.derefLive (h : Heap) (r : RcStr) : Option String :=
  (h.cells r.alloc).map Prod.fst

/-- A one-cell demonstration heap holding `"foo"` at address `0` with strong
count `1`. -/
def demoHeap : Heap :=
  ⟨fun j => if j = 0 then some ("foo", 1) else none⟩

/-! ## Helper lemmas about the comparison functions -/

theorem natCmp_lt_iff {a b : Nat} : natCmp a b = .lt ↔ a < b := by
  unfold natCmp
  split
  · simp [*]
  · split <;> simp <;> omega

theorem natCmp_gt_iff {a b : Nat} : natCmp a b = .gt ↔ b < a := by
  unfold natCmp
  split
  · simp
    omega
  · split <;> simp <;> omega

theorem natCmp_eq_iff {a b : Nat} : natCmp a b = .eq ↔ a = b := by
  unfold natCmp
  split
  · simp
    omega
  · split <;> simp <;> omega

theorem natCmp_swap (a b : Nat) : (natCmp a b).swap = natCmp b a := by
  unfold natCmp
  split
  · split
    · omega
    · rfl
  · split
    · rfl
    · rfl

theorem char_toNat_inj {c d : Char} (h : c.toNat = d.toNat) : c = d := by
  rw [← Char.ofNat_toNat c, h, Char.ofNat_toNat]

theorem char_lt_iff_toNat_lt {a b : Char} : a < b ↔ a.toNat < b.toNat := by
  rw [Char.lt_iff_val_lt_val]
  simp [UInt32.lt_def, BitVec.lt_def, Char.toNat, UInt32.toNat]

theorem charCmp_eq_iff {c d : Char} : charCmp c d = .eq ↔ c = d := by
  unfold charCmp
  rw [natCmp_eq_iff]
  exact ⟨char_toNat_inj, fun h => by rw [h]⟩

theorem charCmp_refl (c : Char) : charCmp c c = .eq :=
  charCmp_eq_iff.mpr rfl

theorem charCmp_lt_iff {c d : Char} : charCmp c d = .lt ↔ c.toNat < d.toNat :=
  natCmp_lt_iff

theorem charCmp_gt_iff {c d : Char} : charCmp c d = .gt ↔ d.toNat < c.toNat :=
  natCmp_gt_iff

theorem charCmp_swap (c d : Char) : (charCmp c d).swap = charCmp d c :=
  natCmp_swap c.toNat d.toNat

theorem lexOrd_eq_iff : ∀ {as bs : List Char}, lexOrd as bs = .eq ↔ as = bs
  | [], [] => by simp [lexOrd]
  | [], _ :: _ => by simp [lexOrd]
  | _ :: _, [] => by simp [lexOrd]
  | a :: as, b :: bs => by
    simp only [lexOrd]
    cases h : charCmp a b with
    | eq =>
      have hab := charCmp_eq_iff.mp h
      subst hab
      simp [@lexOrd_eq_iff as bs]
    | lt =>
      simp only [List.cons.injEq]
      constructor
      · intro hh
        exact absurd hh (by simp)
      · rintro ⟨rfl, rfl⟩
        rw [charCmp_refl] at h
        exact Ordering.noConfusion h
    | gt =>
      simp only [List.cons.injEq]
      constructor
      · intro hh
        exact absurd hh (by simp)
      · rintro ⟨rfl, rfl⟩
        rw [charCmp_refl] at h
        exact Ordering.noConfusion h

theorem lexOrd_swap : ∀ (as bs : List Char), (lexOrd as bs).swap = lexOrd bs as
  | [], [] => rfl
  | [], _ :: _ => rfl
  | _ :: _, [] => rfl
  | a :: as, b :: bs => by
    simp only [lexOrd]
    rw [← charCmp_swap b a]
    cases hcb : charCmp b a with
    | eq => simpa [Ordering.swap] using lexOrd_swap as bs
    | lt => simp [Ordering.swap]
    | gt => simp [Ordering.swap]

theorem lexOrd_lt_trans :
    ∀ {as bs cs : List Char},
      lexOrd as bs = .lt → lexOrd bs cs = .lt → lexOrd as cs = .lt
  | [], bs, cs => by
    intro h1 h2
    cases cs with
    | nil =>
      cases bs with
      | nil => exact absurd h1 (by simp [lexOrd])
      | cons b bs => exact absurd h2 (by simp [lexOrd])
    | cons c cs => simp [lexOrd]
  | _ :: _, [], _ => by
    intro h1 _
    exact absurd h1 (by simp [lexOrd])
  | _ :: _, _ :: _, [] => by
    intro _ h2
    exact absurd h2 (by simp [lexOrd])
  | a :: as, b :: bs, c :: cs => by
    intro h1 h2
    simp only [lexOrd] at h1 h2 ⊢
    cases hab : charCmp a b with
    | gt => rw [hab] at h1; exact absurd h1 (by simp)
    | lt =>
      cases hbc : charCmp b c with
      | gt => rw [hbc] at h2; exact absurd h2 (by simp)
      | lt =>
        have hac : charCmp a c = .lt :=
          charCmp_lt_iff.mpr
            (Nat.lt_trans (charCmp_lt_iff.mp hab) (charCmp_lt_iff.mp hbc))
        rw [hac]
      | eq =>
        have hbc' := charCmp_eq_iff.mp hbc
        subst hbc'
        rw [hab]
    | eq =>
      have hab' := charCmp_eq_iff.mp hab
      subst hab'
      rw [hab] at h1
      cases hbc : charCmp a c with
      | gt => rw [hbc] at h2; exact absurd h2 (by simp)
      | lt => rfl
      | eq =>
        rw [hbc] at h2
        exact lexOrd_lt_trans h1 h2

theorem lexOrd_lt_iff_lex :
    ∀ {as bs : List Char}, lexOrd as bs = .lt ↔ List.Lex (· < ·) as bs
  | [], [] =>
    ⟨fun h => Ordering.noConfusion h, fun h => by cases h⟩
  | [], b :: bs =>
    ⟨fun _ => List.Lex.nil, fun _ => rfl⟩
  | a :: as, [] =>
    ⟨fun h => Ordering.noConfusion h, fun h => by cases h⟩
  | a :: as, b :: bs => by
    simp only [lexOrd]
    constructor
    · intro h
      cases hab : charCmp a b with
      | lt =>
        exact List.Lex.rel (char_lt_iff_toNat_lt.mpr (charCmp_lt_iff.mp hab))
      | gt => rw [hab] at h; exact Ordering.noConfusion h
      | eq =>
        have hab' := charCmp_eq_iff.mp hab
        subst hab'
        rw [hab] at h
        exact List.Lex.cons (lexOrd_lt_iff_lex.mp h)
    · intro h
      cases h with
      | rel hr =>
        rw [charCmp_lt_iff.mpr (char_lt_iff_toNat_lt.mp hr)]
      | cons htail =>
        rw [charCmp_refl]
        exact lexOrd_lt_iff_lex.mpr htail

theorem string_eq_iff_data_eq {s t : String} : s = t ↔ s.data = t.data :=
  ⟨fun h => by rw [h], fun h => by cases s; cases t; exact congrArg String.mk h⟩

theorem beq_eq_true_iff {a b : RcStr} (h : RcStr.compat a b) :
    RcStr.beq a b = true ↔ a.content = b.content := by
  simp only [RcStr.beq, RcStr.ptrEq, Bool.or_eq_true, beq_iff_eq]
  exact ⟨fun hh => hh.elim h id, fun hh => Or.inr hh⟩

theorem any_congr {l : List RcStr} {f g : RcStr → Bool}
    (h : ∀ a ∈ l, f a = g a) : l.any f = l.any g := by
  induction l with
  | nil => rfl
  | cons x xs ih =>
    simp only [List.any_cons]
    rw [h x (by simp), ih (fun a ha => h a (by simp [ha]))]

instance decCompat (a b : RcStr) : Decidable (RcStr.compat a b) :=
  if h : a.alloc = b.alloc then
    if hc : a.content = b.content then isTrue (fun _ => hc)
    else isFalse (fun f => hc (f h))
  else isTrue (fun hh => absurd hh h)

/-! ## The claims -/

/-- Claim C1: for every string `s`, the hash of the handle `RcStr::new(s)`
equals the hash of the borrowed `str` view of `s` under any hasher, and the
stream a handle writes into the hasher depends only on its character
content - never on the allocation address (the share count is not part of
the handle's hash input at all). -/
theorem c1_hash_eq_str_hash (H : List Nat → Nat) (alloc : Nat) (s : String) :
    H (RcStr.new alloc s).hashStream = H (strHashStream s) ∧
    ∀ a b : RcStr, a.content = b.content → H a.hashStream = H b.hashStream := by
  refine ⟨rfl, fun a b h => ?_⟩
  unfold RcStr.hashStream stringHashStream
  rw [h]

theorem c1_hash_eq_str_hash_witness :
    List.length (RcStr.new 0 "foo").hashStream = List.length (strHashStream "foo") ∧
    List.length (RcStr.mk 3 "foo").hashStream = List.length (RcStr.mk 7 "foo").hashStream :=
  ⟨(c1_hash_eq_str_hash List.length 0 "foo").1,
   (c1_hash_eq_str_hash List.length 0 "foo").2 (RcStr.mk 3 "foo") (RcStr.mk 7 "foo") rfl⟩

/-- Claim C2: in a hash-based set keyed by handles, after inserting
`RcStr::new("foo")` a lookup with the borrowed text `"foo"` succeeds and a
lookup with `"bar"` fails, under any hasher; and in general a lookup with a
borrowed string `v` and a lookup with a handle `hd` agree whenever `v`
equals `hd`'s content (for handles from one execution, where sharing an
allocation implies sharing content). -/
theorem c2_heterogeneous_lookup (H : List Nat → Nat) :
    (∀ alloc : Nat,
      HashSet.containsStr H (HashSet.insert HashSet.empty (RcStr.new alloc "foo")) "foo" = true ∧
      HashSet.containsStr H (HashSet.insert HashSet.empty (RcStr.new alloc "foo")) "bar" = false) ∧
    ∀ (set : HashSet) (hd : RcStr) (v : String),
      v = hd.content →
      (∀ r ∈ set, RcStr.compat r hd) →
      HashSet.containsStr H set v = HashSet.containsRc H set hd := by
  constructor
  · intro alloc
    constructor
    · simp only [HashSet.containsStr, HashSet.insert, HashSet.empty, List.any_cons,
        List.any_nil, Bool.or_false]
      rw [show (RcStr.borrow (RcStr.new alloc "foo") == "foo") = true from
          beq_self_eq_true "foo",
        Bool.and_true,
        show (RcStr.new alloc "foo").hashStream = strHashStream "foo" from rfl]
      exact beq_self_eq_true (H (strHashStream "foo"))
    · simp only [HashSet.containsStr, HashSet.insert, HashSet.empty, List.any_cons,
        List.any_nil, Bool.or_false]
      rw [show (RcStr.borrow (RcStr.new alloc "foo") == "bar") = false from
          beq_eq_false_iff_ne.mpr (show ("foo" : String) ≠ "bar" by decide),
        Bool.and_false]
  · intro set hd v hv hcompat
    subst hv
    apply any_congr
    intro r hr
    have hc := hcompat r hr
    unfold RcStr.borrow RcStr.hashStream stringHashStream RcStr.beq RcStr.ptrEq
    by_cases hal : r.alloc = hd.alloc
    · have hco := hc hal
      simp [hal, hco]
    · rw [show (r.alloc == hd.alloc) = false from beq_eq_false_iff_ne.mpr hal,
        Bool.false_or]

theorem c2_heterogeneous_lookup_witness :
    HashSet.containsStr List.length [RcStr.mk 5 "foo"] "foo"
      = HashSet.containsRc List.length [RcStr.mk 5 "foo"] (RcStr.mk 7 "foo") :=
  (c2_heterogeneous_lookup List.length).2 [RcStr.mk 5 "foo"] (RcStr.mk 7 "foo") "foo"
    rfl (by decide)

/-- Claim C3: two constructed handles compare equal exactly when the two
source strings are equal as plain text (element for element), whether or
not the handles share an underlying allocation - the hypothesis `a = b →
s = t` records that handles sharing an allocation necessarily view the same
content, which is every execution's reality. -/
theorem c3_new_eq_iff_content (s t : String) (a b : Nat) (h : a = b → s = t) :
    (RcStr.beq (RcStr.new a s) (RcStr.new b t) = true ↔ s = t) ∧
    (s = t ↔ s.data = t.data) :=
  ⟨@beq_eq_true_iff (RcStr.new a s) (RcStr.new b t) h,
   string_eq_iff_data_eq⟩

theorem c3_new_eq_iff_content_witness :
    RcStr.beq (RcStr.new 0 "foo") (RcStr.new 1 "foo") = true :=
  ((c3_new_eq_iff_content "foo" "foo" 0 1 (fun _ => rfl)).1).mpr rfl

/-- Claim C4: equality is available both between two handles (the derived
`PartialEq`) and between a handle and a borrowed string view (through the
`Deref` view, as in the crate's doc example), and in both cases it is true
exactly when the character content is element-wise identical. -/
theorem c4_eq_both_forms (a b : RcStr) (v : String) (h : RcStr.compat a b) :
    (RcStr.beq a b = true ↔ a.content.data = b.content.data) ∧
    (RcStr.eqStr a v = true ↔ a.content.data = v.data) := by
  constructor
  · rw [beq_eq_true_iff h]
    exact string_eq_iff_data_eq
  · unfold RcStr.eqStr RcStr.deref
    rw [beq_iff_eq]
    exact string_eq_iff_data_eq

theorem c4_eq_both_forms_witness :
    RcStr.eqStr (RcStr.mk 4 "abc") "abc" = true :=
  ((c4_eq_both_forms (RcStr.mk 4 "abc") (RcStr.mk 9 "abc") "abc" (by decide)).2).mpr rfl

/-- Claim C5: `Ord::cmp` of two constructed handles is the lexicographic
comparison of the two source strings and never consults the allocation;
`strCmp`'s `.lt` agrees with the standard lexicographic (`List.Lex`) order
on the character sequences; and the comparison is a total order: `.eq`
exactly on equal strings (antisymmetry), swapped arguments swap the result,
`.lt` is transitive, and every pair is ordered (trichotomy). -/
theorem c5_cmp_lexicographic_total :
    (∀ (s t : String) (a b : Nat),
        RcStr.cmp (RcStr.new a s) (RcStr.new b t) = strCmp s t) ∧
    (∀ a b : RcStr, RcStr.cmp a b = strCmp a.deref b.deref) ∧
    (∀ s t : String, strCmp s t = .lt ↔ List.Lex (· < ·) s.data t.data) ∧
    (∀ s t : String, strCmp s t = .eq ↔ s = t) ∧
    (∀ s t : String, (strCmp s t).swap = strCmp t s) ∧
    (∀ s t u : String, strCmp s t = .lt → strCmp t u = .lt → strCmp s u = .lt) ∧
    (∀ s t : String, strCmp s t = .lt ∨ strCmp s t = .eq ∨ strCmp s t = .gt) := by
  refine ⟨fun s t a b => rfl, fun a b => rfl, fun s t => lexOrd_lt_iff_lex,
    fun s t => ?_, fun s t => lexOrd_swap s.data t.data,
    fun s t u h1 h2 => lexOrd_lt_trans h1 h2, fun s t => ?_⟩
  · unfold strCmp
    rw [lexOrd_eq_iff]
    exact string_eq_iff_data_eq.symm
  · cases h : strCmp s t with
    | lt => exact Or.inl rfl
    | eq => exact Or.inr (Or.inl rfl)
    | gt => exact Or.inr (Or.inr rfl)

theorem c5_cmp_lexicographic_total_witness : strCmp "a" "c" = .lt :=
  c5_cmp_lexicographic_total.2.2.2.2.2.1 "a" "b" "c" (by decide) (by decide)

/-- Claim C6: round trip - for every string `s`, empty included, the
borrowed view obtained by dereferencing `RcStr::new(s)` equals `s`. -/
theorem c6_new_deref_roundtrip (alloc : Nat) (s : String) :
    (RcStr.new alloc s).deref = s :=
  rfl

/-- Claim C7: Display of a handle produces exactly the raw text that
Display of the borrowed view produces, and Debug of a handle produces
exactly the quoted/escaped form Debug of the borrowed view produces, with
no wrapper notation; in particular Display of `RcStr::new("hello")` is the
literal text `hello`, and its Debug form is the quoted `"hello"`. -/
theorem c7_fmt_like_str (r : RcStr) (alloc : Nat) :
    RcStr.displayFmt r = strDisplayFmt r.deref ∧
    RcStr.debugFmt r = strDebugFmt r.deref ∧
    RcStr.displayFmt (RcStr.new alloc "hello") = "hello" ∧
    RcStr.debugFmt (RcStr.new alloc "hello") = strDebugFmt "hello" ∧
    strDebugFmt "hello" = "\"hello\"" :=
  ⟨rfl, rfl, rfl, rfl, by decide⟩

/-- Claim C8: cloning a handle yields a new handle to the same allocation
with equal content, increments the share count by one while leaving the
character data in place (nothing is copied), and after the original handle
is dropped the clone still dereferences to the same intact content. -/
theorem c8_clone_independence (h : Heap) (r : RcStr) (hv : h.valid r) :
    ((RcStr.clone h r).2).alloc = r.alloc ∧
    ((RcStr.clone h r).2).content = r.content ∧
    (∃ n, h.cells r.alloc = some (r.content, n) ∧
      ((RcStr.clone h r).1).cells r.alloc = some (r.content, n + 1)) ∧
    RcStr.derefLive (RcStr.drop (RcStr.clone h r).1 r) (RcStr.clone h r).2
      = some r.content := by
  obtain ⟨n, hcell, hpos⟩ := hv
  have hc1 : (RcStr.clone h r).1 = h.write r.alloc (some (r.content, n + 1)) := by
    unfold RcStr.clone
    rw [hcell]
  have hcellc : ((RcStr.clone h r).1).cells r.alloc = some (r.content, n + 1) := by
    rw [hc1]
    simp [Heap.write]
  have hdrop : RcStr.drop (RcStr.clone h r).1 r
      = ((RcStr.clone h r).1).write r.alloc (some (r.content, n)) := by
    unfold RcStr.drop
    simp only [hcellc]
    rw [if_neg (by omega)]
    rfl
  refine ⟨rfl, rfl, ⟨n, hcell, hcellc⟩, ?_⟩
  rw [hdrop]
  unfold RcStr.derefLive
  simp [Heap.write, RcStr.clone]

theorem c8_clone_independence_witness :
    ((RcStr.clone demoHeap (RcStr.mk 0 "foo")).2).alloc = 0 ∧
    RcStr.derefLive
      (RcStr.drop (RcStr.clone demoHeap (RcStr.mk 0 "foo")).1 (RcStr.mk 0 "foo"))
      (RcStr.clone demoHeap (RcStr.mk 0 "foo")).2 = some "foo" :=
  ⟨(c8_clone_independence demoHeap (RcStr.mk 0 "foo") ⟨1, rfl, by decide⟩).1,
   (c8_clone_independence demoHeap (RcStr.mk 0 "foo") ⟨1, rfl, by decide⟩).2.2.2⟩

/-- Claim C9: the three borrowed-view conversions - `Borrow<str>`, `Deref`
and `AsRef<str>` - return equal strings for every handle: all three denote
the handle's content. -/
theorem c9_views_agree (r : RcStr) :
    RcStr.borrow r = RcStr.deref r ∧
    RcStr.deref r = RcStr.asRef r ∧
    RcStr.asRef r = r.content :=
  ⟨rfl, rfl, rfl⟩

/-- Claim C10: the derived partial comparison never returns `None` and
always equals `Some` of the manually implemented total comparison - the
derived `PartialOrd` over the shared pointer and the hand-written `Ord`
over the `str` content agree. -/
theorem c10_partialCmp_eq_some_cmp (a b : RcStr) :
    RcStr.partialCmp a b = some (RcStr.cmp a b) ∧
    (RcStr.partialCmp a b).isSome = true :=
  ⟨rfl, rfl⟩

end Rcstr
